import Mathlib

/-!
Shallow embedding of the `file` crate (src/src/lib.rs): one-call whole-file
read/write helpers over a filesystem modelled as a partial map from paths to
byte contents.

Bytes are `Nat` (values 0..255 in real files), paths are `String`.  Rust
`Vec<u8>` is modelled with an explicit capacity field so that the
metadata-based `reserve` in `get` is visible in the model while provably not
affecting the returned data.  Rust `String` is modelled as a byte list
carrying the UTF-8 validity invariant, exactly as in Rust (a `String` is a
`Vec<u8>` guaranteed valid UTF-8; `String::from_utf8` validates without
transcoding).
-/

namespace file

/-- The filesystem: a partial map from paths to file contents.
`File::open` fails (NotFound) exactly on missing paths; `File::create`
creates or truncates. -/
abbrev FS := String → Option (List Nat)

/-- The filesystem after `File::create(p)` followed by writing `d`:
the file at `p` is created or truncated and holds exactly `d`. -/
def FS.update (fs : FS) (p : String) (d : List Nat) : FS :=
  fun q => if q = p then some d else fs q

/-- The error kinds the crate can surface (`std::io::ErrorKind`). -/
inductive ErrorKind where
  | notFound
  | invalidData
  deriving DecidableEq

/-- A `std::io::Error`: a kind plus a message. -/
structure IOError where
  kind : ErrorKind
  msg : String
  deriving DecidableEq

/-- Rust `Vec<u8>`: data plus a capacity, so `reserve` is observable in the
model while leaving the data untouched. -/
structure Vec where
  data : List Nat
  cap : Nat
  deriving DecidableEq

/-- `Vec::new()`. -/
def Vec.new : Vec := ⟨[], 0⟩

/-- `Vec::reserve(n)`: ensures capacity for `n` more elements; the data is
unchanged. -/
def Vec.reserve (v : Vec) (n : Nat) : Vec :=
  ⟨v.data, max v.cap (v.data.length + n)⟩

/-- `Read::read_to_end` appending the whole remaining stream `bytes` to `v`,
growing capacity as needed. -/
def Vec.appendAll (v : Vec) (bytes : List Nat) : Vec :=
  ⟨v.data ++ bytes, max v.cap (v.data.length + bytes.length)⟩

/-- The error `File::open` returns on a missing path. -/
def notFoundError : IOError := ⟨ErrorKind.notFound, "No such file or directory"⟩

/-- `file::get`: open the file (fail with an I/O error if missing), reserve
the metadata-reported length as a capacity suggestion when metadata is
available (`meta = some n`; `meta = none` models a failed metadata query),
then `read_to_end` into the vector.  `meta` is an environment parameter: the
reported length need not match the actual contents. -/
def get (fs : FS) (meta : Option Nat) (p : String) : Except IOError Vec :=
  match fs p with
  | none => Except.error notFoundError
  | some contents =>
    let d := Vec.new
    let d := match meta with
      | some n => d.reserve n
      | none => d
    Except.ok (d.appendAll contents)

/-- The byte contents returned by `file::get` (the `Vec<u8>` seen as data). -/
def getData (fs : FS) (meta : Option Nat) (p : String) : Except IOError (List Nat) :=
  (get fs meta p).map Vec.data

/-- `file::put`: `File::create` (create or truncate, non-atomic) then
`write_all`; returns the resulting filesystem. -/
def put (fs : FS) (p : String) (data : List Nat) : Except IOError FS :=
  Except.ok (fs.update p data)

/-- State of Rust's `run_utf8_validation` scanning loop: either between
characters, or inside a multi-byte character expecting the next byte in
`[lo, hi]` followed by `more` plain continuation bytes (`0x80..=0xBF`), or
already failed. -/
inductive Utf8State where
  | start
  | expect (lo hi : Nat) (more : Nat)
  | fail
  deriving DecidableEq

/-- One step of Rust's UTF-8 validation on byte `b`: the lead-byte dispatch
of `utf8_char_width` plus the special first-continuation ranges that rule
out overlong forms (`0xE0`, `0xF0`), surrogates (`0xED`) and code points
above U+10FFFF (`0xF4`). -/
def utf8Next : Utf8State → Nat → Utf8State
  | Utf8State.fail, _ => Utf8State.fail
  | Utf8State.start, b =>
    if b ≤ 0x7F then Utf8State.start
    else if 0xC2 ≤ b && b ≤ 0xDF then Utf8State.expect 0x80 0xBF 0
    else if b == 0xE0 then Utf8State.expect 0xA0 0xBF 1
    else if 0xE1 ≤ b && b ≤ 0xEC then Utf8State.expect 0x80 0xBF 1
    else if b == 0xED then Utf8State.expect 0x80 0x9F 1
    else if 0xEE ≤ b && b ≤ 0xEF then Utf8State.expect 0x80 0xBF 1
    else if b == 0xF0 then Utf8State.expect 0x90 0xBF 2
    else if 0xF1 ≤ b && b ≤ 0xF3 then Utf8State.expect 0x80 0xBF 2
    else if b == 0xF4 then Utf8State.expect 0x80 0x8F 2
    else Utf8State.fail
  | Utf8State.expect lo hi more, b =>
    if lo ≤ b && b ≤ hi then
      match more with
      | 0 => Utf8State.start
      | m + 1 => Utf8State.expect 0x80 0xBF m
    else Utf8State.fail

/-- Running the validation loop over a byte sequence. -/
def utf8Run (s : Utf8State) : List Nat → Utf8State
  | [] => s
  | b :: rest => utf8Run (utf8Next s b) rest

/-- UTF-8 validity of a byte sequence, as Rust `String::from_utf8` checks
it: the scan accepts exactly when it ends between characters. -/
def validUTF8 (l : List Nat) : Bool :=
  decide (utf8Run Utf8State.start l = Utf8State.start)

/-- Rust `String`: a byte vector carrying the UTF-8 validity invariant. -/
def RustString := { l : List Nat // validUTF8 l = true }

instance : DecidableEq RustString := Subtype.instDecidableEq

/-- `str::as_bytes`: the raw UTF-8 byte representation, unchanged. -/
def RustString.as_bytes (s : RustString) : List Nat := s.val

/-- The error `get_text` builds when `String::from_utf8` fails (lib.rs:64):
a fixed `InvalidData` error carrying no decode details. -/
def invalidDataError : IOError := ⟨ErrorKind.invalidData, "file did not contain valid UTF-8"⟩

/-- `file::get_text`: `get` then `String::from_utf8`, mapping any decode
failure to the fixed `InvalidData` error. -/
def get_text (fs : FS) (meta : Option Nat) (p : String) : Except IOError RustString :=
  match getData fs meta p with
  | Except.error e => Except.error e
  | Except.ok bytes =>
    if h : validUTF8 bytes = true then Except.ok ⟨bytes, h⟩
    else Except.error invalidDataError

/-- `file::put_text`: `put` of the text's raw UTF-8 bytes. -/
def put_text (fs : FS) (p : String) (s : RustString) : Except IOError FS :=
  put fs p s.as_bytes

/-- Splits a byte stream the way repeated `BufRead::read_line` does,
accumulating the current line in reverse: each segment runs up to and
including a `\n` (byte 10); a final segment without `\n` is kept; a stream
ending in `\n` produces no extra empty segment. -/
def splitSegsAux (cur : List Nat) : List Nat → List (List Nat)
  | [] => if cur.isEmpty then [] else [cur.reverse]
  | b :: rest =>
    if b == 10 then (cur.reverse ++ [10]) :: splitSegsAux [] rest
    else splitSegsAux (b :: cur) rest

/-- The segments (newline-terminated chunks) of a byte stream, as the
`BufRead::lines` iterator reads them. -/
def splitSegs (l : List Nat) : List (List Nat) := splitSegsAux [] l

/-- The line-ending strip of `BufRead::lines`: remove one trailing `\n`
(byte 10), then one trailing `\r` (byte 13) if it is now last; a segment
without a trailing `\n` is returned unchanged. -/
def stripLineEnding (l : List Nat) : List Nat :=
  if l.getLast? = some 10 then
    let l1 := l.dropLast
    if l1.getLast? = some 13 then l1.dropLast else l1
  else l

/-- The outcome of `file::readlines`: a vector of lines, an I/O error from
the open, or a process abort (the `.unwrap()` panic on a line that is not
valid UTF-8). -/
inductive LinesResult where
  | ok (lines : List (List Nat))
  | ioError (e : IOError)
  | panicked
  deriving DecidableEq

/-- `buf.lines().map(|l| l.unwrap()).collect()`: each segment (including its
terminator, as `read_line` reads it) is UTF-8-validated; on failure the
`unwrap` aborts the whole call; on success the line ending is stripped. -/
def collectLines : List (List Nat) → LinesResult
  | [] => LinesResult.ok []
  | s :: rest =>
    if validUTF8 s then
      match collectLines rest with
      | LinesResult.ok ls => LinesResult.ok (stripLineEnding s :: ls)
      | r => r
    else LinesResult.panicked

/-- `file::readlines`: open the file (I/O error if missing), then collect
the unwrapped lines. -/
def readlines (fs : FS) (p : String) : LinesResult :=
  match fs p with
  | none => LinesResult.ioError notFoundError
  | some contents => collectLines (splitSegs contents)

/-- The empty filesystem, for concrete witnesses. -/
def emptyFS : FS := fun _ => none

/-- A file body made of the given lines separated by `\n`, with no trailing
newline ("a\nb\nc" when the lines are "a", "b", "c"). -/
def joinLines : List (List Nat) → List Nat
  | [] => []
  | [l] => l
  | l :: rest => l ++ 10 :: joinLines rest

/-- A file body made of the given lines, each terminated by `\n`
("a\nb\n" when the lines are "a", "b"). -/
def joinNl : List (List Nat) → List Nat
  | [] => []
  | l :: rest => l ++ 10 :: joinNl rest

/-- Helper: when the file exists, `get` succeeds with exactly its contents
as data, for every metadata outcome. -/
theorem getData_of_contents (fs : FS) (meta : Option Nat) (p : String)
    (c : List Nat) (hc : fs p = some c) :
    getData fs meta p = Except.ok c := by
  cases meta <;>
    simp [getData, file.get, hc, Vec.new, Vec.reserve, Vec.appendAll, Except.map]

/-- Helper: looking up the freshly written path yields the written data. -/
theorem FS.update_self (fs : FS) (p : String) (d : List Nat) :
    fs.update p d p = some d := by
  simp [FS.update]

/-- Helper: reading back a freshly written file yields the written bytes. -/
theorem getData_update (fs : FS) (p : String) (b : List Nat)
    (meta : Option Nat) :
    getData (fs.update p b) meta p = Except.ok b :=
  getData_of_contents _ meta p b (FS.update_self fs p b)

/-- C1: a successful `put(P, B)` followed by `get(P)` returns exactly `B`,
for any metadata outcome. -/
theorem put_get_roundtrip (fs fs' : FS) (p : String) (b : List Nat)
    (meta : Option Nat) (h : put fs p b = Except.ok fs') :
    getData fs' meta p = Except.ok b := by
  have hfs : fs' = fs.update p b := by
    simpa [put] using h.symm
  subst hfs
  exact getData_update fs p b meta

/-- C1 witness: writing `[0,1,2]` to path "f" in the empty filesystem and
reading it back yields `[0,1,2]`. -/
theorem put_get_roundtrip_witness :
    getData (FS.update emptyFS "f" [0, 1, 2]) (some 3) "f" = Except.ok [0, 1, 2] :=
  put_get_roundtrip emptyFS _ "f" [0, 1, 2] (some 3) rfl

/-- C3: on a path naming no existing file, `get` returns the NotFound I/O
error value (the model is total: no panic outcome exists). -/
theorem get_missing_file (fs : FS) (meta : Option Nat) (p : String)
    (h : fs p = none) :
    get fs meta p = Except.error notFoundError := by
  simp [file.get, h]

/-- C3 witness: reading path "nope" from the empty filesystem returns the
NotFound error. -/
theorem get_missing_file_witness :
    get emptyFS (some 0) "nope" = Except.error notFoundError :=
  get_missing_file emptyFS (some 0) "nope" rfl

/-- C5: two successive `put`s to the same path leave only the second
contents readable: `get` afterwards returns `b2`. -/
theorem put_overwrite (fs fs1 fs2 : FS) (p : String) (b1 b2 : List Nat)
    (meta : Option Nat) (h1 : put fs p b1 = Except.ok fs1)
    (h2 : put fs1 p b2 = Except.ok fs2) :
    getData fs2 meta p = Except.ok b2 := by
  have hu1 : fs1 = fs.update p b1 := by simpa [put] using h1.symm
  have hu2 : fs2 = fs1.update p b2 := by simpa [put] using h2.symm
  subst hu2
  exact getData_update fs1 p b2 meta

/-- C5 witness: writing `[1]` then `[2,3]` to "f" and reading back yields
`[2,3]`. -/
theorem put_overwrite_witness :
    getData (FS.update (FS.update emptyFS "f" [1]) "f" [2, 3]) none "f" =
      Except.ok [2, 3] :=
  put_overwrite emptyFS _ _ "f" [1] [2, 3] none rfl rfl

/-- C8: whenever the file exists, `get` succeeds and its data is the
complete file contents, for every metadata outcome `meta` — including
`none` (metadata query failed) and any reported length: the metadata is
only a capacity hint. -/
theorem get_reads_all_regardless_of_meta (fs : FS) (p : String)
    (c : List Nat) (hc : fs p = some c) (meta : Option Nat) :
    (get fs meta p).map Vec.data = Except.ok c := by
  cases meta <;>
    simp [file.get, hc, Vec.new, Vec.reserve, Vec.appendAll, Except.map]

/-- C8 witness: a file of 2 bytes is read in full both when metadata fails
and when it reports a wrong length. -/
theorem get_reads_all_regardless_of_meta_witness :
    (get (FS.update emptyFS "f" [7, 8]) none "f").map Vec.data = Except.ok [7, 8] ∧
    (get (FS.update emptyFS "f" [7, 8]) (some 100) "f").map Vec.data = Except.ok [7, 8] :=
  ⟨get_reads_all_regardless_of_meta _ "f" [7, 8] rfl none,
   get_reads_all_regardless_of_meta _ "f" [7, 8] rfl (some 100)⟩

/-- C9: `put_text(P, T)` is exactly `put(P, B)` for `B` the raw UTF-8 bytes
of `T`: the same result and the same written contents, with no transcoding. -/
theorem put_text_refines_put (fs : FS) (p : String) (t : RustString) :
    put_text fs p t = put fs p t.as_bytes := rfl

/-- C9 witness: `put_text` of "h" (byte 104) on a concrete filesystem equals
`put` of the byte 104. -/
theorem put_text_refines_put_witness :
    put_text emptyFS "f" ⟨[104], by decide⟩ =
      put emptyFS "f" (RustString.as_bytes ⟨[104], by decide⟩) :=
  put_text_refines_put emptyFS "f" ⟨[104], by decide⟩

/-- C2: a successful `put_text(P, T)` followed by `get_text(P)` returns
exactly `T`, for any metadata outcome. -/
theorem put_text_get_text_roundtrip (fs fs' : FS) (p : String)
    (t : RustString) (meta : Option Nat)
    (h : put_text fs p t = Except.ok fs') :
    get_text fs' meta p = Except.ok t := by
  have hfs : fs' = fs.update p t.as_bytes := by
    simpa [put_text, put] using h.symm
  subst hfs
  have hd := getData_update fs p t.as_bytes meta
  simp only [get_text, hd]
  have hp : validUTF8 t.as_bytes = true := t.property
  rw [dif_pos hp]
  exact congrArg Except.ok (Subtype.ext rfl)

/-- C2 witness: writing the text "hi" (bytes 104, 105) and reading it back
yields the same text. -/
theorem put_text_get_text_roundtrip_witness :
    get_text (FS.update emptyFS "f" (RustString.as_bytes ⟨[104, 105], by decide⟩))
      none "f" = Except.ok ⟨[104, 105], by decide⟩ :=
  put_text_get_text_roundtrip emptyFS _ "f" ⟨[104, 105], by decide⟩ none rfl

/-- C4: when the file exists but its contents are not valid UTF-8,
`get_text` returns the fixed `InvalidData` error — not the raw bytes, and
(the model being total) not a crash; the error value is a constant
independent of the contents, so no byte offset or decode detail is
reported. -/
theorem get_text_invalid_utf8 (fs : FS) (meta : Option Nat) (p : String)
    (c : List Nat) (hc : fs p = some c) (hv : validUTF8 c = false) :
    get_text fs meta p = Except.error invalidDataError := by
  have hd := getData_of_contents fs meta p c hc
  simp [get_text, hd, hv]

/-- C4 witness: a file holding the single byte 0x80 makes `get_text` return
the `InvalidData` error. -/
theorem get_text_invalid_utf8_witness :
    get_text (FS.update emptyFS "f" [128]) (some 1) "f" =
      Except.error invalidDataError :=
  get_text_invalid_utf8 _ (some 1) "f" [128] (FS.update_self emptyFS "f" [128])
    (by decide)

/-- Helper: the validation scan distributes over concatenation. -/
theorem utf8Run_append (s : Utf8State) (l1 l2 : List Nat) :
    utf8Run s (l1 ++ l2) = utf8Run (utf8Run s l1) l2 := by
  induction l1 generalizing s with
  | nil => rfl
  | cons b rest ih => simp [utf8Run, ih]

/-- Helper: appending a newline byte to valid UTF-8 stays valid. -/
theorem validUTF8_append_newline (l : List Nat) (h : validUTF8 l = true) :
    validUTF8 (l ++ [10]) = true := by
  have hrun : utf8Run Utf8State.start l = Utf8State.start := by
    simpa [validUTF8] using h
  simp [validUTF8, utf8Run_append, hrun, utf8Run, utf8Next]

/-- Helper: the line splitter takes a newline-free prefix plus the `\n` as
one segment and continues after it. -/
theorem splitSegsAux_newline (rest : List Nat) : ∀ (l : List Nat), 10 ∉ l →
    ∀ (cur : List Nat),
    splitSegsAux cur (l ++ 10 :: rest) =
      (cur.reverse ++ l ++ [10]) :: splitSegsAux [] rest
  | [], _, cur => by simp [splitSegsAux]
  | a :: t, hl, cur => by
    have ha : (a == 10) = false :=
      beq_eq_false_iff_ne.mpr (fun he => hl (by simp [he]))
    have ht : 10 ∉ t := fun hm => hl (List.mem_cons_of_mem a hm)
    rw [List.cons_append]
    show splitSegsAux cur (a :: (t ++ 10 :: rest)) = _
    rw [splitSegsAux, ha]
    rw [splitSegsAux_newline rest t ht (a :: cur)]
    simp

/-- Helper: a newline-free stream is a single segment (or none if empty). -/
theorem splitSegsAux_no_newline : ∀ (l : List Nat), 10 ∉ l → ∀ (cur : List Nat),
    splitSegsAux cur l =
      if (cur.reverse ++ l).isEmpty then [] else [cur.reverse ++ l]
  | [], _, cur => by cases cur <;> simp [splitSegsAux]
  | a :: t, hl, cur => by
    have ha : (a == 10) = false :=
      beq_eq_false_iff_ne.mpr (fun he => hl (by simp [he]))
    have ht : 10 ∉ t := fun hm => hl (List.mem_cons_of_mem a hm)
    rw [splitSegsAux, ha]
    rw [splitSegsAux_no_newline t ht (a :: cur)]
    simp

/-- Helper: `splitSegs` on a stream starting with a newline-free line plus
`\n`. -/
theorem splitSegs_newline (l rest : List Nat) (hl : 10 ∉ l) :
    splitSegs (l ++ 10 :: rest) = (l ++ [10]) :: splitSegs rest := by
  simpa [splitSegs] using splitSegsAux_newline rest l hl []

/-- Helper: `splitSegs` of a nonempty newline-free stream is that stream as
one segment. -/
theorem splitSegs_single (l : List Nat) (hl : 10 ∉ l) (hne : l ≠ []) :
    splitSegs l = [l] := by
  rw [splitSegs, splitSegsAux_no_newline l hl []]
  simp [hne]

/-- Helper: a newline-free segment is left unchanged by the line-ending
strip. -/
theorem stripLineEnding_of_no_newline (l : List Nat) (h : 10 ∉ l) :
    stripLineEnding l = l := by
  have hn : l.getLast? ≠ some 10 :=
    fun hc => h (List.mem_of_getLast?_eq_some hc)
  simp [stripLineEnding, hn]

/-- Helper: the strip removes a trailing `\n` and nothing else when the
line does not end in `\r`. -/
theorem stripLineEnding_newline (l : List Nat) (h : l.getLast? ≠ some 13) :
    stripLineEnding (l ++ [10]) = l := by
  simp [stripLineEnding, List.getLast?_concat, List.dropLast_concat, h]

/-- Helper: the strip removes a trailing `\r\n` pair entirely. -/
theorem stripLineEnding_crlf (l : List Nat) :
    stripLineEnding (l ++ [13, 10]) = l := by
  have h2 : l ++ [13, 10] = (l ++ [13]) ++ [10] := by simp
  rw [h2]
  simp [stripLineEnding, List.getLast?_concat, List.dropLast_concat]

/-- Helper: `joinLines` plus a final newline is `joinNl`. -/
theorem joinLines_concat_newline : ∀ (ls : List (List Nat)), ls ≠ [] →
    joinLines ls ++ [10] = joinNl ls
  | [], h => absurd rfl h
  | [l], _ => by simp [joinLines, joinNl]
  | l :: r :: rest, _ => by
    show (l ++ 10 :: joinLines (r :: rest)) ++ [10] = l ++ 10 :: joinNl (r :: rest)
    rw [← joinLines_concat_newline (r :: rest) (by simp)]
    simp

/-- Helper: collecting the segments of a fully newline-terminated body of
well-behaved lines yields exactly those lines. -/
theorem collectLines_joinNl : ∀ (ls : List (List Nat)),
    (∀ l ∈ ls, 10 ∉ l ∧ l.getLast? ≠ some 13 ∧ validUTF8 l = true) →
    collectLines (splitSegs (joinNl ls)) = LinesResult.ok ls
  | [], _ => by simp [joinNl, splitSegs, splitSegsAux, collectLines]
  | l :: rest, h => by
    obtain ⟨h10, h13, hv⟩ := h l (List.mem_cons_self l rest)
    have hrest := fun x hx => h x (List.mem_cons_of_mem l hx)
    show collectLines (splitSegs (l ++ 10 :: joinNl rest)) = _
    rw [splitSegs_newline l (joinNl rest) h10]
    have hv10 := validUTF8_append_newline l hv
    simp [collectLines, hv10, collectLines_joinNl rest hrest,
      stripLineEnding_newline l h13]

/-- Helper: collecting the segments of a body without trailing newline made
of well-behaved lines (last one nonempty) yields exactly those lines. -/
theorem collectLines_joinLines : ∀ (ls : List (List Nat)),
    (∀ l ∈ ls, 10 ∉ l ∧ l.getLast? ≠ some 13 ∧ validUTF8 l = true) →
    ls.getLast? ≠ some [] →
    collectLines (splitSegs (joinLines ls)) = LinesResult.ok ls
  | [], _, _ => by simp [joinLines, splitSegs, splitSegsAux, collectLines]
  | [l], h, hlast => by
    obtain ⟨h10, h13, hv⟩ := h l (List.mem_cons_self l [])
    have hne : l ≠ [] := fun he => hlast (by simp [he])
    show collectLines (splitSegs l) = _
    rw [splitSegs_single l h10 hne]
    simp [collectLines, hv, stripLineEnding_of_no_newline l h10]
  | l :: r :: rest, h, hlast => by
    obtain ⟨h10, h13, hv⟩ := h l (List.mem_cons_self l (r :: rest))
    have hrest := fun x hx => h x (List.mem_cons_of_mem l hx)
    have hlast2 : (r :: rest).getLast? ≠ some [] := by
      simpa [List.getLast?_cons_cons] using hlast
    show collectLines (splitSegs (l ++ 10 :: joinLines (r :: rest))) = _
    rw [splitSegs_newline l (joinLines (r :: rest)) h10]
    have hv10 := validUTF8_append_newline l hv
    simp [collectLines, hv10, collectLines_joinLines (r :: rest) hrest hlast2,
      stripLineEnding_newline l h13]

/-- C6: for a file of well-behaved text lines (no embedded newline, no
trailing carriage return, valid UTF-8, last line nonempty), `readlines`
returns the lines in file order with trailing newlines removed, and a
trailing newline on the last line adds no trailing empty entry: both the
body "l1\n...\nlk" and the body "l1\n...\nlk\n" yield exactly the lines. -/
theorem readlines_ordered_lines (fs : FS) (p : String) (ls : List (List Nat))
    (h : ∀ l ∈ ls, 10 ∉ l ∧ l.getLast? ≠ some 13 ∧ validUTF8 l = true)
    (hne : ls ≠ []) (hlast : ls.getLast? ≠ some []) :
    readlines (fs.update p (joinLines ls)) p = LinesResult.ok ls ∧
    readlines (fs.update p (joinLines ls ++ [10])) p = LinesResult.ok ls := by
  constructor
  · rw [readlines, FS.update_self]
    exact collectLines_joinLines ls h hlast
  · rw [readlines, FS.update_self, joinLines_concat_newline ls hne]
    exact collectLines_joinNl ls h

/-- C6 witness: the file "a\nb\nc" yields the lines "a", "b", "c", and so
does "a\nb\nc\n". -/
theorem readlines_ordered_lines_witness :
    readlines (FS.update emptyFS "t" (joinLines [[97], [98], [99]])) "t" =
      LinesResult.ok [[97], [98], [99]] ∧
    readlines (FS.update emptyFS "t" (joinLines [[97], [98], [99]] ++ [10])) "t" =
      LinesResult.ok [[97], [98], [99]] :=
  readlines_ordered_lines emptyFS "t" [[97], [98], [99]] (by decide) (by decide)
    (by decide)

/-- C7: on a file whose single line is the invalid-UTF-8 byte 0x80, the
per-line `unwrap` aborts the whole `readlines` call (model outcome
`panicked`) instead of returning a structured error. -/
theorem readlines_panics_on_invalid_line :
    readlines (FS.update emptyFS "f" [128]) "f" = LinesResult.panicked := by
  rw [readlines, FS.update_self]
  decide

/-- C10: a line terminated by `\r\n` is returned without its trailing `\r`:
the strip removes the pair entirely, and concretely, the files "a\r\nb" and
"a\nb" both yield the lines "a", "b". -/
theorem readlines_strips_cr_before_newline (l : List Nat) :
    stripLineEnding (l ++ [13, 10]) = l ∧
    readlines (FS.update emptyFS "c" [97, 13, 10, 98]) "c" =
      LinesResult.ok [[97], [98]] ∧
    readlines (FS.update emptyFS "c" [97, 10, 98]) "c" =
      LinesResult.ok [[97], [98]] := by
  refine ⟨stripLineEnding_crlf l, ?_, ?_⟩ <;>
    · rw [readlines, FS.update_self]
      decide

/-- C10 witness: the statement applied at the line "a". -/
theorem readlines_strips_cr_before_newline_witness :
    stripLineEnding ([97] ++ [13, 10]) = [97] ∧
    readlines (FS.update emptyFS "c" [97, 13, 10, 98]) "c" =
      LinesResult.ok [[97], [98]] ∧
    readlines (FS.update emptyFS "c" [97, 10, 98]) "c" =
      LinesResult.ok [[97], [98]] :=
  readlines_strips_cr_before_newline [97]

end file
